import Mathlib

/-!
Verification of the filter-convolution core of the ModOpt wavelet module
(modopt/signal/wavelet.py): filter_convolve, filter_convolve_stack and
_trim_filter, over a shallow embedding of numpy arrays as shape plus
row-major data.
-/

namespace ModOpt

/-- Model of a numpy ndarray over a commutative ring of scalars: the list of
dimensions together with the row-major flattened entries.  An array is
well-formed when the data length matches the product of the dimensions. -/
structure NDArray (α : Type) where
  shape : List Nat
  data : List α
deriving DecidableEq, Repr

/-- Number of axes of the array (numpy ndim). -/
def NDArray.ndim {α : Type} (a : NDArray α) : Nat := a.shape.length

/-- Well-formedness: the flattened data has exactly one entry per position. -/
def NDArray.wf {α : Type} (a : NDArray α) : Prop := a.data.length = a.shape.prod

instance {α : Type} (a : NDArray α) : Decidable a.wf := by
  unfold NDArray.wf; infer_instance

/-- Entry lookup in a flat list, zero outside the range. -/
def getE {α : Type} [CommRing α] (l : List α) (i : Nat) : α := l.getD i 0

/-- The i-th slice along the leading axis (numpy a[i] for i in range). -/
def nthSlice {α : Type} (a : NDArray α) (i : Nat) : NDArray α :=
  ⟨a.shape.tail, (a.data.drop (i * a.shape.tail.prod)).take a.shape.tail.prod⟩

/-- All slices along the leading axis, in index order (iterating the array). -/
def slices {α : Type} (a : NDArray α) : List (NDArray α) :=
  (List.range (a.shape.headD 0)).map (nthSlice a)

/-- Entry (i, j) of a 2D array. -/
def entry2 {α : Type} [CommRing α] (a : NDArray α) (i j : Nat) : α :=
  getE a.data (i * a.shape.tail.headD 0 + j)

/-- Periodic index reduction used by the wrap-boundary convolution. -/
def wrapIdx (n : Nat) (i : Int) : Nat := (i.emod n).toNat

/-- Entry of a 2D array at a possibly out-of-range index pair, with periodic
(wrap-around) boundary handling. -/
def at2 {α : Type} [CommRing α] (a : NDArray α) (i j : Int) : α :=
  getE a.data
    (wrapIdx (a.shape.headD 0) i * a.shape.tail.headD 0 +
      wrapIdx (a.shape.tail.headD 0) j)

/-- Modelled from the spec: the 2D convolution backend used by the wavelet
module (modopt.math.convolve is not part of the sources under study).  The
spec requires a same-size centred 2D convolution; the boundary convention is
pinned by the reference examples in the source doctests, which correspond to
true convolution with periodic (wrap) boundaries.  The output has the shape
of the image. -/
def conv2 {α : Type} [CommRing α] (x k : NDArray α) : NDArray α :=
  let H := x.shape.headD 0
  let W := x.shape.tail.headD 0
  let Fh := k.shape.headD 0
  let Fw := k.shape.tail.headD 0
  ⟨x.shape,
    (List.range (H * W)).map (fun t =>
      ((List.range Fh).map (fun p =>
        ((List.range Fw).map (fun q =>
          getE k.data (p * Fw + q) *
            at2 x (((t / W + Fh / 2 : Nat) : Int) - (p : Int))
                  (((t % W + Fw / 2 : Nat) : Int) - (q : Int)))).sum)).sum)⟩

/-- Errors of the convolution core. -/
inductive ConvError
  | invalidInput
  | emptyReduce
deriving DecidableEq, Repr

/-- The two selectable backends.  Modelled from the spec: both backends are
interchangeable strategies satisfying one and the same convolution contract,
so in the exact model they compute the same function. -/
inductive Method
  | scipy
  | astropy
deriving DecidableEq, Repr

/-- Modelled from the spec: the backend convolve accepts a 2D image and a 2D
kernel and returns their same-size convolution; any other rank is an
invalid-input error. -/
def convolve {α : Type} [CommRing α] (x k : NDArray α) (_method : Method) :
    Except ConvError (NDArray α) :=
  if x.ndim = 2 ∧ k.ndim = 2 then .ok (conv2 x k) else .error .invalidInput

/-- np.array applied to a list of same-shaped arrays: a new leading axis.
An empty list yields the empty 1-dimensional array of shape (0,). -/
def stack {α : Type} (l : List (NDArray α)) : NDArray α :=
  match l with
  | [] => ⟨[0], []⟩
  | a :: t => ⟨(a :: t).length :: a.shape, ((a :: t).map NDArray.data).flatten⟩

/-- Pointwise addition of flattened data. -/
def addData {α : Type} [CommRing α] (x y : List α) : List α :=
  List.zipWith (· + ·) x y

/-- One accumulation step of the element-wise sum. -/
def addArr {α : Type} [CommRing α] (acc b : NDArray α) : NDArray α :=
  ⟨acc.shape, addData acc.data b.data⟩

/-- np.sum(list, axis=0): the element-wise sum of a list of same-shaped
arrays, accumulated in index order; the empty list yields the scalar zero
(a 0-dimensional array). -/
def sum_axis0 {α : Type} [CommRing α] (l : List (NDArray α)) : NDArray α :=
  match l with
  | [] => ⟨[], [0]⟩
  | a :: t => t.foldl addArr a

/-- Iterating a numpy array along its leading axis; iterating a
0-dimensional array is an error. -/
def iterSlices {α : Type} (a : NDArray α) : Except ConvError (List (NDArray α)) :=
  if a.ndim = 0 then .error .invalidInput else .ok (slices a)

/-- Modelled from the spec: 180-degree point reflection of a filter
(reversal along both spatial axes); for a 2D array in row-major layout this
is reversal of the flattened data (modopt.base.np_adjust.rotate is not part
of the sources under study). -/
def rotate {α : Type} (a : NDArray α) : NDArray α := ⟨a.shape, a.data.reverse⟩

/-- Modelled from the spec: rotate every filter of the bank, preserving the
filter order (modopt.base.np_adjust.rotate_stack is not part of the sources
under study). -/
def rotate_stack {α : Type} (a : NDArray α) : Except ConvError (NDArray α) :=
  match iterSlices a with
  | .error e => .error e
  | .ok xs => .ok (stack (xs.map rotate))

/-- Effectful map with left-to-right evaluation: the first failure aborts,
as exceptions do in a Python list comprehension. -/
def mapE {β γ : Type} (f : β → Except ConvError γ) : List β → Except ConvError (List γ)
  | [] => .ok []
  | b :: bs =>
    match f b with
    | .error e => .error e
    | .ok c =>
      match mapE f bs with
      | .error e => .error e
      | .ok cs => .ok (c :: cs)

/-- modopt.signal.wavelet.filter_convolve: with filter_rot the coefficient
slices are convolved with the rotated filters pairwise (zip truncates to the
shorter operand) and summed along the new axis; otherwise the image is
convolved with every filter and the results are stacked. -/
def filter_convolve {α : Type} [CommRing α] (d fb : NDArray α)
    (filter_rot : Bool) (method : Method) : Except ConvError (NDArray α) :=
  match filter_rot with
  | true =>
    match rotate_stack fb with
    | .error e => .error e
    | .ok rf =>
      match iterSlices d with
      | .error e => .error e
      | .ok ds =>
        match iterSlices rf with
        | .error e => .error e
        | .ok rs =>
          match mapE (fun p => convolve p.1 p.2 method) (ds.zip rs) with
          | .error e => .error e
          | .ok cs => .ok (sum_axis0 cs)
  | false =>
    match iterSlices fb with
    | .error e => .error e
    | .ok ks =>
      match mapE (fun k => convolve d k method) ks with
      | .error e => .error e
      | .ok cs => .ok (stack cs)

/-- modopt.signal.wavelet.filter_convolve_stack: filter_convolve applied to
every element along the leading axis, results stacked in input order. -/
def filter_convolve_stack {α : Type} [CommRing α] (d fb : NDArray α)
    (filter_rot : Bool) (method : Method) : Except ConvError (NDArray α) :=
  match iterSlices d with
  | .error e => .error e
  | .ok xs =>
    match mapE (fun x => filter_convolve x fb filter_rot method) xs with
    | .error e => .error e
    | .ok rs => .ok (stack rs)

/-- The positions of the non-zero entries of a 2D array, in row-major order
(np.where(filter_array != 0)). -/
def nonZeroIdx {α : Type} [CommRing α] [DecidableEq α] (a : NDArray α) :
    List (Nat × Nat) :=
  (List.range (a.shape.headD 0)).flatMap (fun i =>
    (List.range (a.shape.tail.headD 0)).filterMap (fun j =>
      if getE a.data (i * a.shape.tail.headD 0 + j) = 0 then none
      else some (i, j)))

/-- np.min of a non-empty collection given as head and tail. -/
def listMin (l : List Nat) (x : Nat) : Nat := l.foldl Nat.min x

/-- np.max of a non-empty collection given as head and tail. -/
def listMax (l : List Nat) (x : Nat) : Nat := l.foldl Nat.max x

/-- The rectangular sub-array a[r0 : r1 + 1, c0 : c1 + 1] of a 2D array
(the bounds are within range wherever this is used, so Python slice
clamping does not come into play). -/
def subArray {α : Type} [CommRing α] (a : NDArray α) (r0 r1 c0 c1 : Nat) :
    NDArray α :=
  ⟨[r1 + 1 - r0, c1 + 1 - c0],
   (List.range (r1 + 1 - r0)).flatMap (fun i =>
     (List.range (c1 + 1 - c0)).map (fun j =>
       getE a.data ((r0 + i) * a.shape.tail.headD 0 + (c0 + j))))⟩

/-- modopt.signal.wavelet._trim_filter: the minimal bounding box of the
non-zero entries; the reduction over an empty index set (an all-zero
filter) raises. -/
def trim_filter {α : Type} [CommRing α] [DecidableEq α] (a : NDArray α) :
    Except ConvError (NDArray α) :=
  match nonZeroIdx a with
  | [] => .error .emptyReduce
  | p :: ps =>
    .ok (subArray a (listMin (ps.map Prod.fst) p.1) (listMax (ps.map Prod.fst) p.1)
                    (listMin (ps.map Prod.snd) p.2) (listMax (ps.map Prod.snd) p.2))

/-- The shape of a successful filter_convolve result as a function of the
input shapes alone: with rotation the result is a 0-dimensional scalar when
the zip of coefficient slices and filters is empty and otherwise drops the
leading axis of the data; without rotation an empty bank yields the empty
(0,)-shaped array and otherwise a new leading axis of one slice per filter. -/
def fcShape (xs fs : List Nat) (filter_rot : Bool) : List Nat :=
  match filter_rot with
  | true => if Nat.min (xs.headD 0) (fs.headD 0) = 0 then [] else xs.tail
  | false => if fs.headD 0 = 0 then [0] else fs.headD 0 :: xs

/-- Point reflection stated directly from the spec words: entry (p, q) of
the rotated filter is entry (h - 1 - p, w - 1 - q) of the original. -/
def rot180spec {α : Type} [CommRing α] (a : NDArray α) : NDArray α :=
  let h := a.shape.headD 0
  let w := a.shape.tail.headD 0
  ⟨a.shape,
   (List.range (h * w)).map (fun t =>
     getE a.data ((h - 1 - t / w) * w + (w - 1 - t % w)))⟩

instance {α : Type} : Inhabited (NDArray α) := ⟨⟨[], []⟩⟩

/-! Basic lemmas about the embedding. -/

lemma getD_range_map {β : Type} (f : Nat → β) (n i : Nat) (d : β) (h : i < n) :
    ((List.range n).map f).getD i d = f i := by
  simp [List.getD_eq_getElem?_getD, List.getElem?_map, List.getElem?_range h]

lemma conv2_shape {α : Type} [CommRing α] (x k : NDArray α) :
    (conv2 x k).shape = x.shape := rfl

lemma conv2_data_length {α : Type} [CommRing α] (x k : NDArray α) :
    (conv2 x k).data.length = x.shape.headD 0 * x.shape.tail.headD 0 := by
  simp [conv2]

lemma nthSlice_shape {α : Type} (a : NDArray α) (i : Nat) :
    (nthSlice a i).shape = a.shape.tail := rfl

lemma slices_length {α : Type} (a : NDArray α) :
    (slices a).length = a.shape.headD 0 := by
  simp [slices]

lemma slices_getD {α : Type} (a : NDArray α) (i : Nat) (d : NDArray α)
    (h : i < a.shape.headD 0) : (slices a).getD i d = nthSlice a i :=
  getD_range_map _ _ _ _ h

lemma mem_slices {α : Type} {a b : NDArray α} (h : b ∈ slices a) :
    ∃ i, i < a.shape.headD 0 ∧ b = nthSlice a i := by
  simp only [slices, List.mem_map, List.mem_range] at h
  obtain ⟨i, hi, rfl⟩ := h
  exact ⟨i, hi, rfl⟩

lemma nthSlice_data_length {α : Type} (a : NDArray α) (s0 : Nat) (rest : List Nat)
    (hs : a.shape = s0 :: rest) (hwf : a.wf) (i : Nat) (hi : i < s0) :
    (nthSlice a i).data.length = rest.prod := by
  have hlen : a.data.length = s0 * rest.prod := by
    rw [hwf, hs]; simp [List.prod_cons]
  have hle : i * rest.prod + rest.prod ≤ s0 * rest.prod := by
    have : (i + 1) * rest.prod ≤ s0 * rest.prod :=
      Nat.mul_le_mul_right _ (Nat.succ_le_of_lt hi)
    simpa [Nat.add_mul] using this
  simp only [nthSlice, hs, List.tail_cons, List.length_take, List.length_drop, hlen]
  omega

/-! Lemmas about mapE. -/

lemma mapE_eq_ok_of {β γ : Type} (f : β → Except ConvError γ) (g : β → γ)
    (l : List β) (h : ∀ b ∈ l, f b = .ok (g b)) : mapE f l = .ok (l.map g) := by
  induction l with
  | nil => rfl
  | cons b bs ih =>
    have hb := h b (List.mem_cons_self b bs)
    have hbs := ih (fun x hx => h x (List.mem_cons_of_mem _ hx))
    simp [mapE, hb, hbs]

lemma mapE_ok_length {β γ : Type} {f : β → Except ConvError γ}
    {l : List β} {r : List γ} (h : mapE f l = .ok r) : r.length = l.length := by
  induction l generalizing r with
  | nil => simp only [mapE] at h; cases h; rfl
  | cons b bs ih =>
    simp only [mapE] at h
    cases hfb : f b with
    | error e => rw [hfb] at h; cases h
    | ok c =>
      rw [hfb] at h
      cases hbs : mapE f bs with
      | error e => rw [hbs] at h; cases h
      | ok cs => rw [hbs] at h; cases h; simp [ih hbs]

lemma mapE_ok_getD {β γ : Type} {f : β → Except ConvError γ}
    {l : List β} {r : List γ} (h : mapE f l = .ok r) (db : β) (dc : γ) :
    ∀ i, i < l.length → f (l.getD i db) = .ok (r.getD i dc) := by
  induction l generalizing r with
  | nil => intro i hi; cases hi
  | cons b bs ih =>
    simp only [mapE] at h
    cases hfb : f b with
    | error e => rw [hfb] at h; cases h
    | ok c =>
      rw [hfb] at h
      cases hbs : mapE f bs with
      | error e => rw [hbs] at h; cases h
      | ok cs =>
        rw [hbs] at h; cases h
        intro i hi
        cases i with
        | zero => simpa using hfb
        | succ i2 =>
          simp only [List.getD_cons_succ]
          exact ih hbs i2 (by simpa using hi)

lemma mapE_ok_mem {β γ : Type} {f : β → Except ConvError γ}
    {l : List β} {r : List γ} (h : mapE f l = .ok r) :
    ∀ c ∈ r, ∃ b ∈ l, f b = .ok c := by
  induction l generalizing r with
  | nil => simp only [mapE] at h; cases h; intro c hc; cases hc
  | cons b bs ih =>
    simp only [mapE] at h
    cases hfb : f b with
    | error e => rw [hfb] at h; cases h
    | ok c =>
      rw [hfb] at h
      cases hbs : mapE f bs with
      | error e => rw [hbs] at h; cases h
      | ok cs =>
        rw [hbs] at h; cases h
        intro c2 hc2
        rcases List.mem_cons.mp hc2 with rfl | hm
        · exact ⟨b, List.mem_cons_self _ _, hfb⟩
        · obtain ⟨b2, hb2, hfb2⟩ := ih hbs c2 hm
          exact ⟨b2, List.mem_cons_of_mem _ hb2, hfb2⟩

lemma mapE_error_of_all {β γ : Type} {f : β → Except ConvError γ}
    {l : List β} {e : ConvError} (hne : l ≠ [])
    (h : ∀ b ∈ l, f b = .error e) : mapE f l = .error e := by
  cases l with
  | nil => exact absurd rfl hne
  | cons b bs => simp [mapE, h b (List.mem_cons_self b bs)]

/-! Lemmas about stack. -/

lemma stack_shape {α : Type} {l : List (NDArray α)} {s : List Nat}
    (hne : l ≠ []) (hs : ∀ b ∈ l, b.shape = s) :
    (stack l).shape = l.length :: s := by
  cases l with
  | nil => exact absurd rfl hne
  | cons a t => simp [stack, hs a (List.mem_cons_self a t)]

lemma stack_headD {α : Type} (l : List (NDArray α)) :
    (stack l).shape.headD 0 = l.length := by
  cases l with
  | nil => rfl
  | cons a t => rfl

lemma flatten_map_data_length {α : Type} {l : List (NDArray α)} {n : Nat}
    (h : ∀ b ∈ l, b.data.length = n) :
    ((l.map NDArray.data).flatten).length = l.length * n := by
  induction l with
  | nil => simp
  | cons a t ih =>
    simp only [List.map_cons, List.flatten_cons, List.length_append,
      h a (List.mem_cons_self a t), ih (fun b hb => h b (List.mem_cons_of_mem _ hb)),
      List.length_cons]
    ring

lemma flatten_drop_take {α : Type} {l : List (NDArray α)} {n : Nat}
    (h : ∀ b ∈ l, b.data.length = n) (d0 : NDArray α) :
    ∀ i, i < l.length →
      ((l.map NDArray.data).flatten.drop (i * n)).take n = (l.getD i d0).data := by
  induction l with
  | nil => intro i hi; cases hi
  | cons a t ih =>
    intro i hi
    have ha := h a (List.mem_cons_self a t)
    cases i with
    | zero =>
      simp only [Nat.zero_mul, List.drop_zero, List.map_cons, List.flatten_cons,
        List.getD_cons_zero]
      rw [List.take_append_of_le_length (by omega)]
      rw [← ha, List.take_length]
    | succ i2 =>
      simp only [List.map_cons, List.flatten_cons, List.getD_cons_succ]
      have : (i2 + 1) * n = a.data.length + i2 * n := by rw [ha]; ring
      rw [this, List.drop_append]
      exact ih (fun b hb => h b (List.mem_cons_of_mem _ hb)) i2 (by simpa using hi)

lemma nthSlice_stack {α : Type} {l : List (NDArray α)} (s : List Nat)
    (hne : l ≠ []) (hs : ∀ b ∈ l, b.shape = s)
    (hn : ∀ b ∈ l, b.data.length = s.prod)
    (d0 : NDArray α) (i : Nat) (hi : i < l.length) :
    nthSlice (stack l) i = l.getD i d0 := by
  have hshape := stack_shape hne hs
  have hdata : (stack l).data = (l.map NDArray.data).flatten := by
    cases l with
    | nil => exact absurd rfl hne
    | cons a t => rfl
  have hmem : l.getD i d0 ∈ l := by
    rw [List.getD_eq_getElem l d0 hi]
    exact List.getElem_mem hi
  rcases hval : l.getD i d0 with ⟨cs, cd⟩
  simp only [nthSlice, hshape, hdata, List.tail_cons]
  rw [flatten_drop_take hn d0 i hi, hval]
  have : cs = s := by
    have := hs _ hmem
    rw [hval] at this
    exact this
  rw [this]

/-! Lemmas about element-wise sums. -/

lemma addData_getD {α : Type} [CommRing α] :
    ∀ (x y : List α), x.length = y.length →
      ∀ t, (addData x y).getD t 0 = x.getD t 0 + y.getD t 0 := by
  intro x
  induction x with
  | nil =>
    intro y hy t
    cases y with
    | nil => simp [addData]
    | cons b ys => cases hy
  | cons a xs ih =>
    intro y hy t
    cases y with
    | nil => cases hy
    | cons b ys =>
      cases t with
      | zero => simp [addData]
      | succ t2 =>
        simp only [addData, List.zipWith_cons_cons, List.getD_cons_succ]
        exact ih ys (by simpa using hy) t2

lemma addData_length {α : Type} [CommRing α] (x y : List α)
    (h : x.length = y.length) : (addData x y).length = x.length := by
  simp [addData, h]

lemma foldl_addArr_parts {α : Type} [CommRing α] (l : List (NDArray α)) (n : Nat) :
    ∀ (acc : NDArray α), acc.data.length = n → (∀ b ∈ l, b.data.length = n) →
      (l.foldl addArr acc).shape = acc.shape ∧
      (l.foldl addArr acc).data.length = n ∧
      ∀ t, (l.foldl addArr acc).data.getD t 0 =
        acc.data.getD t 0 + (l.map (fun b => b.data.getD t 0)).sum := by
  induction l with
  | nil => intro acc hacc _; exact ⟨rfl, hacc, by simp⟩
  | cons b bs ih =>
    intro acc hacc hl
    have hb := hl b (List.mem_cons_self b bs)
    have hstep : (addArr acc b).data.length = n := by
      simpa [addArr, hacc] using addData_length acc.data b.data (by rw [hacc, hb])
    obtain ⟨ih1, ih2, ih3⟩ :=
      ih (addArr acc b) hstep (fun x hx => hl x (List.mem_cons_of_mem _ hx))
    refine ⟨by simpa [addArr] using ih1, ih2, fun t => ?_⟩
    rw [List.foldl_cons, ih3 t]
    simp only [addArr]
    rw [addData_getD acc.data b.data (by rw [hacc, hb]) t]
    simp [add_assoc]

lemma sum_axis0_parts {α : Type} [CommRing α] {l : List (NDArray α)}
    {s : List Nat} {n : Nat} (hne : l ≠ [])
    (hs : ∀ b ∈ l, b.shape = s) (hn : ∀ b ∈ l, b.data.length = n) :
    (sum_axis0 l).shape = s ∧ (sum_axis0 l).data.length = n ∧
    ∀ t, (sum_axis0 l).data.getD t 0 = (l.map (fun b => b.data.getD t 0)).sum := by
  cases l with
  | nil => exact absurd rfl hne
  | cons a t =>
    have ha := hn a (List.mem_cons_self a t)
    obtain ⟨h1, h2, h3⟩ :=
      foldl_addArr_parts t n a ha (fun b hb => hn b (List.mem_cons_of_mem _ hb))
    refine ⟨?_, h2, fun t2 => ?_⟩
    · rw [sum_axis0, h1]; exact hs a (List.mem_cons_self a t)
    · rw [sum_axis0, h3 t2]; simp

lemma sum_map_range {M : Type} [AddCommMonoid M] (f : Nat → M) (n : Nat) :
    ((List.range n).map f).sum = ∑ k ∈ Finset.range n, f k := by
  induction n with
  | zero => simp
  | succ m ih => rw [List.range_succ, Finset.sum_range_succ]; simp [ih]

lemma getD_map_of_lt {β γ : Type} (f : β → γ) (l : List β) (k : Nat)
    (h : k < l.length) (db : β) (dc : γ) :
    (l.map f).getD k dc = f (l.getD k db) := by
  rw [List.getD_eq_getElem _ _ (by simpa using h), List.getElem_map,
      List.getD_eq_getElem _ _ h]

lemma iterSlices_ok {α : Type} (a : NDArray α) (h : a.shape ≠ []) :
    iterSlices a = .ok (slices a) := by
  rw [iterSlices, if_neg]
  simpa [NDArray.ndim] using h

lemma slices_eq_range_map {α : Type} (a : NDArray α) (n : Nat)
    (h : a.shape.headD 0 = n) :
    slices a = (List.range n).map (nthSlice a) := by
  simp only [slices, h]

lemma stack_shape_ne_nil {α : Type} (l : List (NDArray α)) :
    (stack l).shape ≠ [] := by
  cases l <;> simp [stack]

/-! Rotation. -/

lemma rotate_eq_rot180spec {α : Type} [CommRing α] (a : NDArray α) (h w : Nat)
    (hs : a.shape = [h, w]) (hl : a.data.length = h * w) :
    rotate a = rot180spec a := by
  simp only [rotate, rot180spec, hs, List.headD_cons, List.tail_cons]
  congr 1
  apply List.ext_getElem
  · simp [hl]
  intro i h1 h2
  have hi : i < h * w := by
    have : (List.map (fun t => getE a.data ((h - 1 - t / w) * w + (w - 1 - t % w)))
        (List.range (h * w))).length = h * w := by simp
    omega
  have hw : 0 < w := by
    rcases Nat.eq_zero_or_pos w with h0 | h0
    · subst h0; simp at hi
    · exact h0
  have hq : i / w < h := (Nat.div_lt_iff_lt_mul hw).mpr hi
  have hr : i % w < w := Nat.mod_lt _ hw
  have hiq : i / w * w + i % w = i := by
    have := Nat.div_add_mod i w
    rw [Nat.mul_comm w (i / w)] at this
    exact this
  have e1 : (h - 1 - i / w) * w = (h - 1) * w - i / w * w := Nat.sub_mul _ _ _
  have e2 : i / w * w ≤ (h - 1) * w := Nat.mul_le_mul_right _ (by omega)
  have hpos : 0 < h := by
    rcases Nat.eq_zero_or_pos h with h0 | h0
    · subst h0; simp at hi
    · exact h0
  have e3 : (h - 1) * w + w = h * w := by
    have hh : h - 1 + 1 = h := by omega
    calc (h - 1) * w + w = (h - 1 + 1) * w := by ring
    _ = h * w := by rw [hh]
  have hidx : (h - 1 - i / w) * w + (w - 1 - i % w) = a.data.length - 1 - i := by
    rw [hl, e1]
    generalize hA : i / w * w = A at e2 hiq ⊢
    generalize hB : (h - 1) * w = B at e2 e3 ⊢
    generalize hC : h * w = C at e3 hi ⊢
    generalize hR : i % w = r at hiq hr ⊢
    omega
  have hlen_lt : a.data.length - 1 - i < a.data.length := by
    rw [hl]; omega
  rw [List.getElem_reverse, List.getElem_map, List.getElem_range, hidx]
  rw [getE, List.getD_eq_getElem?_getD, List.getElem?_eq_getElem hlen_lt]
  simp

/-! Zipping slice lists. -/

lemma zip_range_map {β γ : Type} (f : Nat → β) (g : Nat → γ) (n1 n2 : Nat) :
    ((List.range n1).map f).zip ((List.range n2).map g) =
      (List.range (Nat.min n1 n2)).map (fun k => (f k, g k)) := by
  apply List.ext_getElem
  · simp
  intro i h1 h2
  simp [List.getElem_zip]

/-! Evaluation of filter_convolve in each mode. -/

lemma modeA_eq {α : Type} [CommRing α] (x fb : NDArray α) (H W K Fh Fw : Nat)
    (m : Method) (hx : x.shape = [H, W]) (hf : fb.shape = [K, Fh, Fw]) :
    filter_convolve x fb false m =
      .ok (stack ((List.range K).map (fun k => conv2 x (nthSlice fb k)))) := by
  have h1 : iterSlices fb = .ok (slices fb) := iterSlices_ok fb (by rw [hf]; simp)
  have hsf : slices fb = (List.range K).map (nthSlice fb) :=
    slices_eq_range_map fb K (by rw [hf]; rfl)
  have h2 : mapE (fun k => convolve x k m) ((List.range K).map (nthSlice fb)) =
      .ok (((List.range K).map (nthSlice fb)).map (fun k => conv2 x k)) := by
    apply mapE_eq_ok_of
    intro b hb
    simp only [List.mem_map, List.mem_range] at hb
    obtain ⟨k, hk, rfl⟩ := hb
    rw [convolve, if_pos]
    refine ⟨?_, ?_⟩
    · simp [NDArray.ndim, hx]
    · simp [NDArray.ndim, nthSlice_shape, hf]
  simp only [filter_convolve, h1, hsf, h2, List.map_map]
  rfl

lemma modeB_eq {α : Type} [CommRing α] (d fb : NDArray α) (d0 H W K Fh Fw : Nat)
    (m : Method) (hd : d.shape = [d0, H, W]) (hf : fb.shape = [K, Fh, Fw])
    (hwf : fb.wf) :
    filter_convolve d fb true m =
      .ok (sum_axis0 ((List.range (Nat.min d0 K)).map
        (fun k => conv2 (nthSlice d k) (rot180spec (nthSlice fb k))))) := by
  have hlrot : ∀ b ∈ (slices fb).map rotate, b.shape = [Fh, Fw] := by
    intro b hb
    simp only [List.mem_map] at hb
    obtain ⟨c, hc, rfl⟩ := hb
    obtain ⟨i, _, rfl⟩ := mem_slices hc
    simp [rotate, nthSlice_shape, hf]
  have hlrotlen : ∀ b ∈ (slices fb).map rotate, b.data.length = ([Fh, Fw] : List Nat).prod := by
    intro b hb
    simp only [List.mem_map] at hb
    obtain ⟨c, hc, rfl⟩ := hb
    obtain ⟨i, hi, rfl⟩ := mem_slices hc
    have hi2 : i < K := by simpa [hf] using hi
    simp only [rotate, List.length_reverse]
    exact nthSlice_data_length fb K [Fh, Fw] hf hwf i hi2
  have h1 : rotate_stack fb = .ok (stack ((slices fb).map rotate)) := by
    rw [rotate_stack, iterSlices_ok fb (by rw [hf]; simp)]
  have h2 : iterSlices d = .ok (slices d) := iterSlices_ok d (by rw [hd]; simp)
  have h3 : iterSlices (stack ((slices fb).map rotate)) =
      .ok (slices (stack ((slices fb).map rotate))) :=
    iterSlices_ok _ (stack_shape_ne_nil _)
  have hsd : slices d = (List.range d0).map (nthSlice d) :=
    slices_eq_range_map d d0 (by rw [hd]; rfl)
  have hhead : (stack ((slices fb).map rotate)).shape.headD 0 = K := by
    rw [stack_headD, List.length_map, slices_length, hf]
    rfl
  have hsrf : slices (stack ((slices fb).map rotate)) =
      (List.range K).map (nthSlice (stack ((slices fb).map rotate))) :=
    slices_eq_range_map _ K hhead
  have hKpos : ∀ k, k < Nat.min d0 K → k < K := fun k hk => lt_of_lt_of_le hk (Nat.min_le_right _ _)
  have hrfslice : ∀ k, k < Nat.min d0 K →
      nthSlice (stack ((slices fb).map rotate)) k = rotate (nthSlice fb k) := by
    intro k hk
    have hkK := hKpos k hk
    have hlen : ((slices fb).map rotate).length = K := by simp [slices_length, hf]
    rw [nthSlice_stack [Fh, Fw] (by rw [← List.length_pos_iff_ne_nil, hlen]; omega)
        hlrot hlrotlen default k (by rw [hlen]; exact hkK)]
    rw [getD_map_of_lt rotate (slices fb) k (by simpa [slices_length, hf] using hkK) default]
    rw [slices_getD fb k default (by simpa [hf] using hkK)]
  have hzip : (slices d).zip (slices (stack ((slices fb).map rotate))) =
      (List.range (Nat.min d0 K)).map
        (fun k => (nthSlice d k, nthSlice (stack ((slices fb).map rotate)) k)) := by
    rw [hsd, hsrf, zip_range_map]
  have h4 : mapE (fun p => convolve p.1 p.2 m)
      ((slices d).zip (slices (stack ((slices fb).map rotate)))) =
      .ok (((List.range (Nat.min d0 K)).map
        (fun k => (nthSlice d k, nthSlice (stack ((slices fb).map rotate)) k))).map
          (fun p => conv2 p.1 p.2)) := by
    rw [hzip]
    apply mapE_eq_ok_of
    intro p hp
    simp only [List.mem_map, List.mem_range] at hp
    obtain ⟨k, hk, rfl⟩ := hp
    rw [convolve, if_pos]
    refine ⟨by simp [NDArray.ndim, nthSlice_shape, hd], ?_⟩
    rw [hrfslice k hk]
    simp [NDArray.ndim, rotate, nthSlice_shape, hf]
  simp only [filter_convolve, h1, h2, h3, h4, List.map_map]
  show Except.ok (sum_axis0 _) = Except.ok (sum_axis0 _)
  congr 1
  congr 1
  apply List.map_congr_left
  intro k hk
  simp only [List.mem_range] at hk
  simp only [Function.comp]
  rw [hrfslice k hk]
  congr 1
  apply rotate_eq_rot180spec (nthSlice fb k) Fh Fw
  · simp [nthSlice_shape, hf]
  · have := nthSlice_data_length fb K [Fh, Fw] hf hwf k (hKpos k hk)
    simpa using this

/-! Inversion lemmas: what a successful call tells about its inputs. -/

lemma iterSlices_ok_inv {α : Type} {a : NDArray α} {l : List (NDArray α)}
    (h : iterSlices a = .ok l) : a.shape ≠ [] ∧ l = slices a := by
  by_cases h0 : a.ndim = 0
  · rw [iterSlices, if_pos h0] at h; cases h
  · rw [iterSlices, if_neg h0] at h
    injection h with h2
    refine ⟨fun hc => h0 ?_, h2.symm⟩
    rw [NDArray.ndim, hc]
    rfl

lemma convolve_ok_inv {α : Type} [CommRing α] {x k : NDArray α} {m : Method}
    {c : NDArray α} (h : convolve x k m = .ok c) :
    x.ndim = 2 ∧ k.ndim = 2 ∧ c = conv2 x k := by
  by_cases hc : x.ndim = 2 ∧ k.ndim = 2
  · rw [convolve, if_pos hc] at h
    injection h with h2
    exact ⟨hc.1, hc.2, h2.symm⟩
  · rw [convolve, if_neg hc] at h; cases h

lemma rotate_stack_ok_inv {α : Type} {a rf : NDArray α}
    (h : rotate_stack a = .ok rf) :
    a.shape ≠ [] ∧ rf = stack ((slices a).map rotate) := by
  simp only [rotate_stack] at h
  cases hit : iterSlices a with
  | error e => rw [hit] at h; cases h
  | ok xs =>
    simp only [hit] at h
    injection h with h2
    obtain ⟨h3, h4⟩ := iterSlices_ok_inv hit
    subst h4
    exact ⟨h3, h2.symm⟩

lemma shape_two_of_ndim {α : Type} (a : NDArray α) (h : a.ndim = 2) :
    a.shape = [a.shape.headD 0, a.shape.tail.headD 0] := by
  rcases a with ⟨s, da⟩
  simp only [NDArray.ndim] at h
  cases s with
  | nil => simp at h
  | cons s0 t =>
    cases t with
    | nil => simp at h
    | cons s1 t2 =>
      cases t2 with
      | nil => rfl
      | cons s2 t3 => simp at h

lemma stack_data_eq {α : Type} (l : List (NDArray α)) (hne : l ≠ []) :
    (stack l).data = (l.map NDArray.data).flatten := by
  cases l with
  | nil => exact absurd rfl hne
  | cons a t => rfl

lemma fc_ok_parts {α : Type} [CommRing α] {x fb : NDArray α} {rot : Bool}
    {m : Method} {r : NDArray α} (h : filter_convolve x fb rot m = .ok r) :
    r.shape = fcShape x.shape fb.shape rot ∧
    r.data.length = (fcShape x.shape fb.shape rot).prod := by
  cases rot with
  | false =>
    simp only [filter_convolve] at h
    cases hit : iterSlices fb with
    | error e => rw [hit] at h; cases h
    | ok ks =>
      simp only [hit] at h
      cases hm : mapE (fun k => convolve x k m) ks with
      | error e => rw [hm] at h; cases h
      | ok cs =>
        simp only [hm] at h
        injection h with h2
        subst h2
        obtain ⟨hfb_ne, hks⟩ := iterSlices_ok_inv hit
        subst hks
        have hlen : cs.length = fb.shape.headD 0 := by
          rw [mapE_ok_length hm, slices_length]
        by_cases hK : fb.shape.headD 0 = 0
        · have hcs : cs = [] := List.length_eq_zero.mp (by rw [hlen, hK])
          subst hcs
          refine ⟨?_, ?_⟩ <;> simp only [fcShape] <;> rw [if_pos hK] <;> simp [stack]
        · have hKpos : 0 < fb.shape.headD 0 := Nat.pos_of_ne_zero hK
          have hne : cs ≠ [] := by
            rw [← List.length_pos_iff_ne_nil, hlen]
            exact hKpos
          have hmem : ∀ c ∈ cs, c.shape = x.shape ∧ c.data.length = x.shape.prod := by
            intro c hc
            obtain ⟨b, hb, hok⟩ := mapE_ok_mem hm c hc
            obtain ⟨hx2, _, rfl⟩ := convolve_ok_inv hok
            refine ⟨conv2_shape x b, ?_⟩
            rw [conv2_data_length]
            conv_rhs => rw [shape_two_of_ndim x hx2]
            simp
          constructor
          · rw [stack_shape hne (fun b hb => (hmem b hb).1), hlen]
            simp only [fcShape]
            rw [if_neg hK]
          · rw [stack_data_eq cs hne,
              flatten_map_data_length (fun b hb => (hmem b hb).2), hlen]
            simp only [fcShape]
            rw [if_neg hK]
            simp
  | true =>
    simp only [filter_convolve] at h
    cases hrs : rotate_stack fb with
    | error e => rw [hrs] at h; cases h
    | ok rf =>
      simp only [hrs] at h
      cases hid : iterSlices x with
      | error e => rw [hid] at h; cases h
      | ok ds =>
        simp only [hid] at h
        cases hirf : iterSlices rf with
        | error e => rw [hirf] at h; cases h
        | ok rs =>
          simp only [hirf] at h
          cases hm : mapE (fun p => convolve p.1 p.2 m) (ds.zip rs) with
          | error e => rw [hm] at h; cases h
          | ok cs =>
            simp only [hm] at h
            injection h with h2
            subst h2
            obtain ⟨hx_ne, hds⟩ := iterSlices_ok_inv hid
            subst hds
            obtain ⟨hrf_ne, hrs2⟩ := iterSlices_ok_inv hirf
            subst hrs2
            obtain ⟨hfb_ne, hrf⟩ := rotate_stack_ok_inv hrs
            have hhead : rf.shape.headD 0 = fb.shape.headD 0 := by
              rw [hrf, stack_headD, List.length_map, slices_length]
            have hlen : cs.length = Nat.min (x.shape.headD 0) (fb.shape.headD 0) := by
              rw [mapE_ok_length hm, List.length_zip, slices_length, slices_length, hhead]
            by_cases hmin : Nat.min (x.shape.headD 0) (fb.shape.headD 0) = 0
            · have hcs : cs = [] := List.length_eq_zero.mp (by rw [hlen, hmin])
              subst hcs
              refine ⟨?_, ?_⟩ <;> simp only [fcShape] <;> rw [if_pos hmin] <;>
                simp [sum_axis0]
            · have hne : cs ≠ [] := by
                rw [← List.length_pos_iff_ne_nil, hlen]
                exact Nat.pos_of_ne_zero hmin
              have hmem : ∀ c ∈ cs, c.shape = x.shape.tail ∧
                  c.data.length = x.shape.tail.prod := by
                intro c hc
                obtain ⟨p, hp, hok⟩ := mapE_ok_mem hm c hc
                obtain ⟨h1, _, rfl⟩ := convolve_ok_inv hok
                have hp1 : p.1 ∈ slices x := (List.of_mem_zip hp).1
                obtain ⟨i, hi, hpi⟩ := mem_slices hp1
                have hnd : (nthSlice x i).ndim = 2 := by rw [← hpi]; exact h1
                have hsh := shape_two_of_ndim _ hnd
                rw [nthSlice_shape] at hsh
                refine ⟨by rw [conv2_shape, hpi, nthSlice_shape], ?_⟩
                rw [conv2_data_length, hpi, nthSlice_shape]
                conv_rhs => rw [hsh]
                simp
              obtain ⟨hS, hL, _⟩ := sum_axis0_parts hne
                (fun b hb => (hmem b hb).1) (fun b hb => (hmem b hb).2)
              constructor
              · rw [hS]; simp only [fcShape]; rw [if_neg hmin]
              · rw [hL]; simp only [fcShape]; rw [if_neg hmin]

/-- Entry-wise description of the accumulated Mode B result. -/
lemma sumL_parts {α : Type} [CommRing α] (d fb : NDArray α) (d0 H W n : Nat)
    (hd : d.shape = [d0, H, W]) (hpos : 0 < n) :
    (sum_axis0 ((List.range n).map
      (fun k => conv2 (nthSlice d k) (rot180spec (nthSlice fb k))))).shape = [H, W] ∧
    ∀ i, i < H → ∀ j, j < W →
      entry2 (sum_axis0 ((List.range n).map
        (fun k => conv2 (nthSlice d k) (rot180spec (nthSlice fb k))))) i j
        = ∑ k ∈ Finset.range n,
            entry2 (conv2 (nthSlice d k) (rot180spec (nthSlice fb k))) i j := by
  have hmem : ∀ b ∈ (List.range n).map
      (fun k => conv2 (nthSlice d k) (rot180spec (nthSlice fb k))), b.shape = [H, W] := by
    intro b hb
    simp only [List.mem_map, List.mem_range] at hb
    obtain ⟨k, _, rfl⟩ := hb
    rw [conv2_shape, nthSlice_shape, hd]
    rfl
  have hmeml : ∀ b ∈ (List.range n).map
      (fun k => conv2 (nthSlice d k) (rot180spec (nthSlice fb k))),
      b.data.length = H * W := by
    intro b hb
    simp only [List.mem_map, List.mem_range] at hb
    obtain ⟨k, _, rfl⟩ := hb
    rw [conv2_data_length, nthSlice_shape, hd]
    rfl
  have hne : (List.range n).map
      (fun k => conv2 (nthSlice d k) (rot180spec (nthSlice fb k))) ≠ [] := by
    rw [← List.length_pos_iff_ne_nil, List.length_map, List.length_range]
    exact hpos
  obtain ⟨hS, _, hE⟩ := sum_axis0_parts hne hmem hmeml
  refine ⟨hS, fun i hi j hj => ?_⟩
  simp only [entry2, getE]
  rw [hS]
  simp only [List.tail_cons, List.headD_cons]
  rw [hE (i * W + j), List.map_map, sum_map_range]
  apply Finset.sum_congr rfl
  intro k _
  simp only [Function.comp, conv2_shape, nthSlice_shape, hd, List.tail_cons,
    List.headD_cons]

/-! The claims. -/

/-- C1: for a 2D image and a non-empty 3D bank of K filters, the filter
convolver with filter_rot disabled succeeds with a (K, H, W) array whose
k-th slice is the same-size 2D convolution of the image with the k-th
filter, in filter order. -/
theorem C1_filter_convolve_stacks_convolutions {α : Type} [CommRing α]
    (x fb : NDArray α) (H W K Fh Fw : Nat) (m : Method)
    (hx : x.shape = [H, W]) (hf : fb.shape = [K, Fh, Fw]) (hK : 0 < K) :
    ∃ R, filter_convolve x fb false m = .ok R ∧ R.shape = [K, H, W] ∧
      ∀ k, k < K → nthSlice R k = conv2 x (nthSlice fb k) := by
  refine ⟨_, modeA_eq x fb H W K Fh Fw m hx hf, ?_, ?_⟩
  case _ =>
    rw [stack_shape ?_ ?_]
    · rw [List.length_map, List.length_range]
    · rw [← List.length_pos_iff_ne_nil, List.length_map, List.length_range]
      exact hK
    · intro b hb
      simp only [List.mem_map, List.mem_range] at hb
      obtain ⟨k, _, rfl⟩ := hb
      rw [conv2_shape, hx]
  case _ =>
    intro k hk
    have hmem : ∀ b ∈ (List.range K).map (fun k2 => conv2 x (nthSlice fb k2)),
        b.shape = [H, W] := by
      intro b hb
      simp only [List.mem_map, List.mem_range] at hb
      obtain ⟨k2, _, rfl⟩ := hb
      rw [conv2_shape, hx]
    have hmeml : ∀ b ∈ (List.range K).map (fun k2 => conv2 x (nthSlice fb k2)),
        b.data.length = ([H, W] : List Nat).prod := by
      intro b hb
      simp only [List.mem_map, List.mem_range] at hb
      obtain ⟨k2, _, rfl⟩ := hb
      rw [conv2_data_length, hx]
      simp
    have hne : (List.range K).map (fun k2 => conv2 x (nthSlice fb k2)) ≠ [] := by
      rw [← List.length_pos_iff_ne_nil, List.length_map, List.length_range]
      exact hK
    rw [nthSlice_stack [H, W] hne hmem hmeml default k
      (by rw [List.length_map, List.length_range]; exact hk)]
    rw [getD_map_of_lt _ _ k (by rw [List.length_range]; exact hk) 0]
    rw [List.getD_eq_getElem _ _ (by rw [List.length_range]; exact hk),
      List.getElem_range]


/-- C1 witness at a concrete input. -/
theorem C1_witness :
    (NDArray.mk [1, 1] [(2 : ℤ)]).shape = [1, 1] ∧
    (NDArray.mk [1, 1, 1] [(3 : ℤ)]).shape = [1, 1, 1] ∧ 0 < 1 ∧
    (∃ R, filter_convolve (NDArray.mk [1, 1] [(2 : ℤ)])
        (NDArray.mk [1, 1, 1] [(3 : ℤ)]) false Method.scipy = .ok R ∧
      R.shape = [1, 1, 1] ∧
      ∀ k, k < 1 → nthSlice R k = conv2 (NDArray.mk [1, 1] [(2 : ℤ)])
        (nthSlice (NDArray.mk [1, 1, 1] [(3 : ℤ)]) k)) :=
  ⟨rfl, rfl, by decide,
    C1_filter_convolve_stacks_convolutions _ _ 1 1 1 1 1 Method.scipy rfl rfl (by decide)⟩

/-- C2 counterexample: with K = 0 filters and a matching empty 3D stack of
(2, 2) maps, Mode B returns the 0-dimensional scalar zero, not an (H, W)
array, so the claim fails at K = 0. -/
theorem C2_counterexample :
    filter_convolve (NDArray.mk [0, 2, 2] ([] : List ℤ))
        (NDArray.mk [0, 2, 2] ([] : List ℤ)) true Method.scipy =
      .ok (NDArray.mk [] [0]) ∧
    (NDArray.mk ([] : List Nat) [(0 : ℤ)]).shape ≠ [2, 2] :=
  ⟨rfl, by decide⟩

/-- C2 (amended: K must be positive; at K = 0 the result is the scalar zero
instead): for a non-empty bank, Mode B rotates every filter by 180 degrees
(index order preserved), convolves the k-th coefficient map with the k-th
rotated filter and returns the element-wise sum over k = 0..K-1, an (H, W)
array. -/
theorem C2_rot_accumulates {α : Type} [CommRing α] (d fb : NDArray α)
    (K H W Fh Fw : Nat) (m : Method) (hd : d.shape = [K, H, W])
    (hf : fb.shape = [K, Fh, Fw]) (hK : 0 < K) (hwf : fb.wf) :
    ∃ R, filter_convolve d fb true m = .ok R ∧ R.shape = [H, W] ∧
      ∀ i, i < H → ∀ j, j < W →
        entry2 R i j = ∑ k ∈ Finset.range K,
          entry2 (conv2 (nthSlice d k) (rot180spec (nthSlice fb k))) i j := by
  have hKK : Nat.min K K = K := Nat.min_self K
  have hpos : 0 < Nat.min K K := by rw [hKK]; exact hK
  refine ⟨_, modeB_eq d fb K H W K Fh Fw m hd hf hwf, ?_, ?_⟩
  · exact (sumL_parts d fb K H W (Nat.min K K) hd hpos).1
  · intro i hi j hj
    rw [(sumL_parts d fb K H W (Nat.min K K) hd hpos).2 i hi j hj, hKK]

/-- C2 witness at a concrete input. -/
theorem C2_witness :
    (NDArray.mk [1, 1, 1] [(5 : ℤ)]).shape = [1, 1, 1] ∧
    (NDArray.mk [1, 1, 1] [(3 : ℤ)]).shape = [1, 1, 1] ∧ 0 < 1 ∧
    (NDArray.mk [1, 1, 1] [(3 : ℤ)]).wf ∧
    (∃ R, filter_convolve (NDArray.mk [1, 1, 1] [(5 : ℤ)])
        (NDArray.mk [1, 1, 1] [(3 : ℤ)]) true Method.scipy = .ok R ∧
      R.shape = [1, 1] ∧
      ∀ i, i < 1 → ∀ j, j < 1 →
        entry2 R i j = ∑ k ∈ Finset.range 1,
          entry2 (conv2 (nthSlice (NDArray.mk [1, 1, 1] [(5 : ℤ)]) k)
            (rot180spec (nthSlice (NDArray.mk [1, 1, 1] [(3 : ℤ)]) k))) i j) :=
  ⟨rfl, rfl, by decide, by decide,
    C2_rot_accumulates _ _ 1 1 1 1 1 Method.scipy rfl rfl (by decide) (by decide)⟩

/-- C3: the stack convolver maps the single-image convolver over the leading
axis: slice i of a successful stacked result is exactly the result of the
single-image call on slice i, with the same bank, mode and method, in input
order. -/
theorem C3_stack_law {α : Type} [CommRing α] (d fb : NDArray α) (rot : Bool)
    (m : Method) (N : Nat) (s : List Nat) (R : NDArray α)
    (hd : d.shape = N :: s) (h : filter_convolve_stack d fb rot m = .ok R) :
    ∀ i, i < N → filter_convolve (nthSlice d i) fb rot m = .ok (nthSlice R i) := by
  simp only [filter_convolve_stack] at h
  cases hid : iterSlices d with
  | error e => rw [hid] at h; cases h
  | ok xs =>
    simp only [hid] at h
    cases hm : mapE (fun x => filter_convolve x fb rot m) xs with
    | error e => rw [hm] at h; cases h
    | ok rs =>
      simp only [hm] at h
      injection h with h2
      subst h2
      obtain ⟨hne0, hxs⟩ := iterSlices_ok_inv hid
      subst hxs
      intro i hi
      have hN : d.shape.headD 0 = N := by rw [hd]; rfl
      have hxs_len : (slices d).length = N := by rw [slices_length, hN]
      have hrs_len : rs.length = N := by rw [mapE_ok_length hm, hxs_len]
      have hpt := mapE_ok_getD hm default default i (by rw [hxs_len]; exact hi)
      rw [slices_getD d i default (by rw [hN]; exact hi)] at hpt
      have hmemsh : ∀ b ∈ rs, b.shape = fcShape s fb.shape rot ∧
          b.data.length = (fcShape s fb.shape rot).prod := by
        intro b hb
        obtain ⟨a, ha, hfa⟩ := mapE_ok_mem hm b hb
        obtain ⟨j, hj, rfl⟩ := mem_slices ha
        have hparts := fc_ok_parts hfa
        rw [nthSlice_shape, hd, List.tail_cons] at hparts
        exact hparts
      have hnth := nthSlice_stack (fcShape s fb.shape rot)
        (by rw [← List.length_pos_iff_ne_nil, hrs_len]; omega)
        (fun b hb => (hmemsh b hb).1) (fun b hb => (hmemsh b hb).2) default i
        (by rw [hrs_len]; exact hi)
      rw [hnth]
      exact hpt

/-- C3 witness at a concrete input. -/
theorem C3_witness :
    (NDArray.mk [2, 1, 1] [(5 : ℤ), 7]).shape = 2 :: [1, 1] ∧
    filter_convolve_stack (NDArray.mk [2, 1, 1] [(5 : ℤ), 7])
        (NDArray.mk [1, 1, 1] [(1 : ℤ)]) false Method.scipy =
      .ok (NDArray.mk [2, 1, 1, 1] [5, 7]) ∧ 0 < 2 ∧
    filter_convolve (nthSlice (NDArray.mk [2, 1, 1] [(5 : ℤ), 7]) 0)
        (NDArray.mk [1, 1, 1] [(1 : ℤ)]) false Method.scipy =
      .ok (nthSlice (NDArray.mk [2, 1, 1, 1] [(5 : ℤ), 7]) 0) :=
  ⟨rfl, rfl, by decide,
    C3_stack_law (NDArray.mk [2, 1, 1] [(5 : ℤ), 7]) (NDArray.mk [1, 1, 1] [(1 : ℤ)])
      false Method.scipy 2 [1, 1] (NDArray.mk [2, 1, 1, 1] [5, 7]) rfl rfl 0 (by decide)⟩

/-- C4 counterexample: with an empty filter bank the convolver does not
fail: Mode A silently returns the empty (0,)-shaped array and Mode B the
scalar zero. -/
theorem C4_counterexample :
    filter_convolve (NDArray.mk [3, 3] [(0 : ℤ), 1, 2, 3, 4, 5, 6, 7, 8])
        (NDArray.mk [0, 3, 3] ([] : List ℤ)) false Method.scipy =
      .ok (NDArray.mk [0] []) ∧
    filter_convolve (NDArray.mk [3, 3] [(0 : ℤ), 1, 2, 3, 4, 5, 6, 7, 8])
        (NDArray.mk [0, 3, 3] ([] : List ℤ)) true Method.scipy =
      .ok (NDArray.mk [] [0]) :=
  ⟨rfl, rfl⟩

/-- C4 (amended: the code does not fail with a shape-mismatch error; it
silently returns degenerate results): for an empty bank, Mode A returns the
empty (0,)-shaped array for every input; Mode B returns the scalar zero for
every iterable input (rank at least 1), while for 0-dimensional data the
iteration over the data itself raises an invalid-input error, still not a
shape-mismatch check of the bank. -/
theorem C4_empty_bank_silent {α : Type} [CommRing α] (d fb : NDArray α)
    (Fh Fw : Nat) (m : Method) (hf : fb.shape = [0, Fh, Fw]) :
    filter_convolve d fb false m = .ok ⟨[0], []⟩ ∧
    (d.ndim ≠ 0 → filter_convolve d fb true m = .ok ⟨[], [0]⟩) ∧
    (d.ndim = 0 → filter_convolve d fb true m = .error .invalidInput) := by
  have h1 : iterSlices fb = .ok (slices fb) := iterSlices_ok fb (by rw [hf]; simp)
  have hempty : slices fb = [] := by
    rw [slices_eq_range_map fb 0 (by rw [hf]; rfl)]
    rfl
  have h3 : rotate_stack fb = .ok (stack ([] : List (NDArray α))) := by
    simp only [rotate_stack, h1, hempty, List.map_nil]
  refine ⟨?_, ?_, ?_⟩
  · simp only [filter_convolve, h1, hempty]
    rfl
  · intro hnd0
    have h2 : iterSlices d = .ok (slices d) := by
      apply iterSlices_ok
      intro hc
      apply hnd0
      rw [NDArray.ndim, hc]
      rfl
    have h4 : iterSlices (stack ([] : List (NDArray α))) = .ok [] := rfl
    simp only [filter_convolve, h3, h2, h4, List.zip_nil_right]
    rfl
  · intro hnd0
    have h2 : iterSlices d = .error .invalidInput := by
      rw [iterSlices, if_pos hnd0]
    simp only [filter_convolve, h3, h2]

/-- C4 witness at a concrete input. -/
theorem C4_witness :
    (NDArray.mk [0, 1, 1] ([] : List ℤ)).shape = [0, 1, 1] ∧
    (filter_convolve (NDArray.mk [2, 2] [(1 : ℤ), 2, 3, 4])
        (NDArray.mk [0, 1, 1] ([] : List ℤ)) false Method.scipy =
      .ok ⟨[0], []⟩ ∧
    ((NDArray.mk [2, 2] [(1 : ℤ), 2, 3, 4]).ndim ≠ 0 →
      filter_convolve (NDArray.mk [2, 2] [(1 : ℤ), 2, 3, 4])
          (NDArray.mk [0, 1, 1] ([] : List ℤ)) true Method.scipy =
        .ok ⟨[], [0]⟩) ∧
    ((NDArray.mk [2, 2] [(1 : ℤ), 2, 3, 4]).ndim = 0 →
      filter_convolve (NDArray.mk [2, 2] [(1 : ℤ), 2, 3, 4])
          (NDArray.mk [0, 1, 1] ([] : List ℤ)) true Method.scipy =
        .error .invalidInput)) :=
  ⟨rfl, C4_empty_bank_silent _ _ 1 1 Method.scipy rfl⟩

/-- C5 counterexample: a 3D coefficient stack with leading dimension 1 fed
to a bank of 2 filters in Mode B raises no shape-mismatch error; the call
succeeds and returns a result. -/
theorem C5_counterexample :
    (1 : Nat) ≠ 2 ∧
    filter_convolve (NDArray.mk [1, 2, 2] [(1 : ℤ), 2, 3, 4])
        (NDArray.mk [2, 2, 2] [(1 : ℤ), 0, 0, 0, 0, 0, 0, 1]) true Method.scipy =
      .ok (NDArray.mk [2, 2] [1, 2, 3, 4]) :=
  ⟨by decide, rfl⟩

/-- C5 (amended: no error is raised; zip silently truncates to the first
min(K-prime, K) pairs): Mode B on a 3D stack whose leading dimension differs
from the filter count still succeeds. -/
theorem C5_no_mismatch_error {α : Type} [CommRing α] (d fb : NDArray α)
    (d0 H W K Fh Fw : Nat) (m : Method) (hd : d.shape = [d0, H, W])
    (hf : fb.shape = [K, Fh, Fw]) (hdK : d0 ≠ K) (hwf : fb.wf) :
    ∃ R, filter_convolve d fb true m = .ok R :=
  ⟨_, modeB_eq d fb d0 H W K Fh Fw m hd hf hwf⟩

/-- C5 witness at a concrete input. -/
theorem C5_witness :
    (NDArray.mk [1, 1, 1] [(6 : ℤ)]).shape = [1, 1, 1] ∧
    (NDArray.mk [3, 1, 1] [(1 : ℤ), 2, 3]).shape = [3, 1, 1] ∧
    (1 : Nat) ≠ 3 ∧ (NDArray.mk [3, 1, 1] [(1 : ℤ), 2, 3]).wf ∧
    (∃ R, filter_convolve (NDArray.mk [1, 1, 1] [(6 : ℤ)])
        (NDArray.mk [3, 1, 1] [(1 : ℤ), 2, 3]) true Method.scipy = .ok R) :=
  ⟨rfl, rfl, by decide, by decide,
    C5_no_mismatch_error _ _ 1 1 1 3 1 1 Method.scipy rfl rfl (by decide) (by decide)⟩

/-- C6 counterexample: 3D (non-2D) data in Mode A with an empty bank raises
no error at all; the call returns the empty array. -/
theorem C6_counterexample :
    (NDArray.mk [1, 1, 1] [(7 : ℤ)]).ndim ≠ 2 ∧
    filter_convolve (NDArray.mk [1, 1, 1] [(7 : ℤ)])
        (NDArray.mk [0, 3, 3] ([] : List ℤ)) false Method.scipy =
      .ok (NDArray.mk [0] []) :=
  ⟨by decide, rfl⟩

/-- C6 (amended: only with a non-empty bank, and in Mode B only when the
data is 0-dimensional or has a non-empty leading axis, does wrong-rank data
produce the invalid-input error; with an empty bank, or an empty leading
axis in Mode B, a degenerate result is silently returned): rank errors for
non-2D data in Mode A and non-3D data in Mode B. -/
theorem C6_rank_errors {α : Type} [CommRing α] (d fb : NDArray α)
    (K Fh Fw : Nat) (m : Method) (hf : fb.shape = [K, Fh, Fw]) (hK : 0 < K) :
    (d.ndim ≠ 2 → filter_convolve d fb false m = .error .invalidInput) ∧
    (d.ndim ≠ 3 → (d.ndim = 0 ∨ 0 < d.shape.headD 0) →
      filter_convolve d fb true m = .error .invalidInput) := by
  have h1 : iterSlices fb = .ok (slices fb) := iterSlices_ok fb (by rw [hf]; simp)
  have hrot : rotate_stack fb = .ok (stack ((slices fb).map rotate)) := by
    simp only [rotate_stack, h1]
  constructor
  · intro hnd
    have herr : mapE (fun k => convolve d k m) (slices fb) = .error .invalidInput := by
      apply mapE_error_of_all
      · rw [← List.length_pos_iff_ne_nil, slices_length, hf]
        exact hK
      · intro b hb
        obtain ⟨i, hi, rfl⟩ := mem_slices hb
        rw [convolve, if_neg]
        intro hc
        exact hnd hc.1
    simp only [filter_convolve, h1, herr]
  · intro hnd hcase
    rcases hcase with h0 | hpos
    · have h2 : iterSlices d = .error .invalidInput := by rw [iterSlices, if_pos h0]
      simp only [filter_convolve, hrot, h2]
    · have hdne : d.shape ≠ [] := by
        intro hc
        rw [hc] at hpos
        simp at hpos
      have h2 : iterSlices d = .ok (slices d) := iterSlices_ok d hdne
      have h3 : iterSlices (stack ((slices fb).map rotate)) =
          .ok (slices (stack ((slices fb).map rotate))) :=
        iterSlices_ok _ (stack_shape_ne_nil _)
      have hzlen : ((slices d).zip (slices (stack ((slices fb).map rotate)))).length =
          Nat.min (d.shape.headD 0) K := by
        rw [List.length_zip, slices_length, slices_length, stack_headD,
          List.length_map, slices_length, hf]
        rfl
      have hzne : (slices d).zip (slices (stack ((slices fb).map rotate))) ≠ [] := by
        rw [← List.length_pos_iff_ne_nil, hzlen]
        exact Nat.lt_min.mpr ⟨hpos, hK⟩
      have herr : mapE (fun p => convolve p.1 p.2 m)
          ((slices d).zip (slices (stack ((slices fb).map rotate)))) =
          .error .invalidInput := by
        apply mapE_error_of_all hzne
        intro p hp
        have hp1 : p.1 ∈ slices d := (List.of_mem_zip hp).1
        obtain ⟨i, hi, hpi⟩ := mem_slices hp1
        have hneg : ¬(p.1.ndim = 2 ∧ p.2.ndim = 2) := by
          intro hc
          apply hnd
          have ht : p.1.ndim = d.shape.tail.length := by
            rw [hpi, NDArray.ndim, nthSlice_shape]
          have h2len : d.shape.tail.length = 2 := by rw [← ht]; exact hc.1
          rw [NDArray.ndim]
          cases hds : d.shape with
          | nil => exact absurd hds hdne
          | cons a t =>
            rw [hds] at h2len
            simp only [List.tail_cons] at h2len
            simp [h2len]
        rw [convolve, if_neg hneg]
      simp only [filter_convolve, hrot, h2, h3, herr]

/-- C6 witness at a concrete input. -/
theorem C6_witness :
    (NDArray.mk [1, 2, 2] [(1 : ℤ), 2, 3, 4]).shape = [1, 2, 2] ∧ 0 < 1 ∧
    (((NDArray.mk [4] [(1 : ℤ), 2, 3, 4]).ndim ≠ 2 →
      filter_convolve (NDArray.mk [4] [(1 : ℤ), 2, 3, 4])
          (NDArray.mk [1, 2, 2] [(1 : ℤ), 2, 3, 4]) false Method.scipy =
        .error .invalidInput) ∧
    ((NDArray.mk [4] [(1 : ℤ), 2, 3, 4]).ndim ≠ 3 →
      ((NDArray.mk [4] [(1 : ℤ), 2, 3, 4]).ndim = 0 ∨
        0 < (NDArray.mk [4] [(1 : ℤ), 2, 3, 4]).shape.headD 0) →
      filter_convolve (NDArray.mk [4] [(1 : ℤ), 2, 3, 4])
          (NDArray.mk [1, 2, 2] [(1 : ℤ), 2, 3, 4]) true Method.scipy =
        .error .invalidInput)) :=
  ⟨rfl, by decide, C6_rank_errors _ _ 1 2 2 Method.scipy rfl (by decide)⟩

/-- C7: the reference Mode A example of the source: x = arange(9) as a
(3, 3) image, F = arange(36) as a (4, 3, 3) bank, spatial-domain backend;
the result is the (4, 3, 3) array of the reference with first-slice
top-left entry 174. -/
theorem C7_reference_mode_a :
    filter_convolve (NDArray.mk [3, 3] [(0 : ℤ), 1, 2, 3, 4, 5, 6, 7, 8])
        (NDArray.mk [4, 3, 3] [(0 : ℤ), 1, 2, 3, 4, 5, 6, 7, 8, 9, 10, 11, 12, 13, 14, 15, 16, 17, 18, 19, 20, 21, 22, 23, 24, 25, 26, 27, 28, 29, 30, 31, 32, 33, 34, 35]) false Method.scipy =
      .ok (NDArray.mk [4, 3, 3] [174, 165, 174, 93, 84, 93, 174, 165, 174, 498, 489, 498, 417, 408, 417, 498, 489, 498, 822, 813, 822, 741, 732, 741, 822, 813, 822, 1146, 1137, 1146, 1065, 1056, 1065, 1146, 1137, 1146]) ∧
    entry2 (nthSlice (NDArray.mk [4, 3, 3] ([174, 165, 174, 93, 84, 93, 174, 165, 174, 498, 489, 498, 417, 408, 417, 498, 489, 498, 822, 813, 822, 741, 732, 741, 822, 813, 822, 1146, 1137, 1146, 1065, 1056, 1065, 1146, 1137, 1146] : List ℤ)) 0) 0 0 = 174 :=
  ⟨rfl, rfl⟩

/-- C8: the reference Mode B example of the source: F = arange(36) as a
(4, 3, 3) array used as both data and filters with filter_rot, spatial
backend; the result is the single (3, 3) reference array with top-left
entry 14550. -/
theorem C8_reference_mode_b :
    filter_convolve (NDArray.mk [4, 3, 3] [(0 : ℤ), 1, 2, 3, 4, 5, 6, 7, 8, 9, 10, 11, 12, 13, 14, 15, 16, 17, 18, 19, 20, 21, 22, 23, 24, 25, 26, 27, 28, 29, 30, 31, 32, 33, 34, 35])
        (NDArray.mk [4, 3, 3] [(0 : ℤ), 1, 2, 3, 4, 5, 6, 7, 8, 9, 10, 11, 12, 13, 14, 15, 16, 17, 18, 19, 20, 21, 22, 23, 24, 25, 26, 27, 28, 29, 30, 31, 32, 33, 34, 35]) true Method.scipy =
      .ok (NDArray.mk [3, 3] [14550, 14586, 14550, 14874, 14910, 14874, 14550, 14586, 14550]) ∧
    entry2 (NDArray.mk [3, 3] ([14550, 14586, 14550, 14874, 14910, 14874, 14550, 14586, 14550] : List ℤ)) 0 0 = 14550 :=
  ⟨rfl, rfl⟩

/-- C9: Mode B raises no error when the leading dimension d0 of the 3D data
differs from the filter count K: it sums element-wise over exactly the first
min(d0, K) pairs of data slice and rotated filter, and when that count is
zero it returns the 0-dimensional scalar zero instead of an array. -/
theorem C9_zip_truncation {α : Type} [CommRing α] (d fb : NDArray α)
    (d0 H W K Fh Fw : Nat) (m : Method) (hd : d.shape = [d0, H, W])
    (hf : fb.shape = [K, Fh, Fw]) (hwf : fb.wf) :
    ∃ R, filter_convolve d fb true m = .ok R ∧
      (Nat.min d0 K = 0 → R = ⟨[], [0]⟩) ∧
      (0 < Nat.min d0 K → R.shape = [H, W] ∧
        ∀ i, i < H → ∀ j, j < W →
          entry2 R i j = ∑ k ∈ Finset.range (Nat.min d0 K),
            entry2 (conv2 (nthSlice d k) (rot180spec (nthSlice fb k))) i j) := by
  refine ⟨_, modeB_eq d fb d0 H W K Fh Fw m hd hf hwf, ?_, ?_⟩
  · intro h0
    rw [h0]
    rfl
  · intro hpos
    exact ⟨(sumL_parts d fb d0 H W _ hd hpos).1,
      (sumL_parts d fb d0 H W _ hd hpos).2⟩

/-- C9 witness at a concrete input with mismatched leading dimensions. -/
theorem C9_witness :
    (NDArray.mk [1, 1, 1] [(5 : ℤ)]).shape = [1, 1, 1] ∧
    (NDArray.mk [2, 1, 1] [(3 : ℤ), 4]).shape = [2, 1, 1] ∧
    (NDArray.mk [2, 1, 1] [(3 : ℤ), 4]).wf ∧
    (∃ R, filter_convolve (NDArray.mk [1, 1, 1] [(5 : ℤ)])
        (NDArray.mk [2, 1, 1] [(3 : ℤ), 4]) true Method.scipy = .ok R ∧
      (Nat.min 1 2 = 0 → R = ⟨[], [0]⟩) ∧
      (0 < Nat.min 1 2 → R.shape = [1, 1] ∧
        ∀ i, i < 1 → ∀ j, j < 1 →
          entry2 R i j = ∑ k ∈ Finset.range (Nat.min 1 2),
            entry2 (conv2 (nthSlice (NDArray.mk [1, 1, 1] [(5 : ℤ)]) k)
              (rot180spec (nthSlice (NDArray.mk [2, 1, 1] [(3 : ℤ), 4]) k))) i j)) :=
  ⟨rfl, rfl, by decide,
    C9_zip_truncation _ _ 1 1 1 2 1 1 Method.scipy rfl rfl (by decide)⟩


/-! Minimum and maximum folds, and the non-zero index list. -/

lemma listMin_cons (a : Nat) (t : List Nat) (x : Nat) :
    listMin (a :: t) x = listMin t (Nat.min x a) := rfl

lemma listMax_cons (a : Nat) (t : List Nat) (x : Nat) :
    listMax (a :: t) x = listMax t (Nat.max x a) := rfl

lemma listMin_le (l : List Nat) (x : Nat) :
    listMin l x ≤ x ∧ ∀ y ∈ l, listMin l x ≤ y := by
  induction l generalizing x with
  | nil => exact ⟨Nat.le_refl x, by intro y hy; cases hy⟩
  | cons a t ih =>
    obtain ⟨ih1, ih2⟩ := ih (Nat.min x a)
    rw [listMin_cons]
    refine ⟨Nat.le_trans ih1 (Nat.min_le_left x a), ?_⟩
    intro y hy
    rcases List.mem_cons.mp hy with rfl | hm
    · exact Nat.le_trans ih1 (Nat.min_le_right x y)
    · exact ih2 y hm

lemma listMax_ge (l : List Nat) (x : Nat) :
    x ≤ listMax l x ∧ ∀ y ∈ l, y ≤ listMax l x := by
  induction l generalizing x with
  | nil => exact ⟨Nat.le_refl x, by intro y hy; cases hy⟩
  | cons a t ih =>
    obtain ⟨ih1, ih2⟩ := ih (Nat.max x a)
    rw [listMax_cons]
    refine ⟨Nat.le_trans (Nat.le_max_left x a) ih1, ?_⟩
    intro y hy
    rcases List.mem_cons.mp hy with rfl | hm
    · exact Nat.le_trans (Nat.le_max_right x y) ih1
    · exact ih2 y hm

lemma listMin_mem (l : List Nat) (x : Nat) :
    listMin l x = x ∨ listMin l x ∈ l := by
  induction l generalizing x with
  | nil => exact Or.inl rfl
  | cons a t ih =>
    rw [listMin_cons]
    rcases ih (Nat.min x a) with h | h
    · rcases Nat.le_total x a with hle | hle
      · have h2 : Nat.min x a = x := Nat.min_eq_left hle
        exact Or.inl (by rw [h, h2])
      · have h2 : Nat.min x a = a := Nat.min_eq_right hle
        refine Or.inr ?_
        rw [h, h2]
        exact List.mem_cons_self a t
    · exact Or.inr (List.mem_cons_of_mem a h)

lemma listMax_mem (l : List Nat) (x : Nat) :
    listMax l x = x ∨ listMax l x ∈ l := by
  induction l generalizing x with
  | nil => exact Or.inl rfl
  | cons a t ih =>
    rw [listMax_cons]
    rcases ih (Nat.max x a) with h | h
    · rcases Nat.le_total x a with hle | hle
      · have h2 : Nat.max x a = a := Nat.max_eq_right hle
        refine Or.inr ?_
        rw [h, h2]
        exact List.mem_cons_self a t
      · have h2 : Nat.max x a = x := Nat.max_eq_left hle
        exact Or.inl (by rw [h, h2])
    · exact Or.inr (List.mem_cons_of_mem a h)

lemma mem_nonZeroIdx {α : Type} [CommRing α] [DecidableEq α] (a : NDArray α)
    (H W : Nat) (hs : a.shape = [H, W]) (p : Nat × Nat) :
    p ∈ nonZeroIdx a ↔ p.1 < H ∧ p.2 < W ∧ entry2 a p.1 p.2 ≠ 0 := by
  rcases p with ⟨i, j⟩
  simp only [nonZeroIdx, entry2, hs, List.headD_cons, List.tail_cons,
    List.mem_flatMap, List.mem_filterMap, List.mem_range]
  constructor
  · rintro ⟨i2, hi2, j2, hj2, hsome⟩
    by_cases hz : getE a.data (i2 * W + j2) = 0
    · rw [if_pos hz] at hsome; cases hsome
    · rw [if_neg hz] at hsome
      injection hsome with h1
      injection h1 with ha hb
      subst ha
      subst hb
      exact ⟨hi2, hj2, hz⟩
  · rintro ⟨hi, hj, hz⟩
    exact ⟨i, hi, j, hj, by rw [if_neg hz]⟩

/-- C10: _trim_filter returns the sub-array over the minimal row and column
ranges containing every non-zero entry (the minimal bounding box), provided
some entry is non-zero; on an all-zero filter the reduction over the empty
index set fails. -/
theorem C10_trim_bounding_box {α : Type} [CommRing α] [DecidableEq α]
    (a : NDArray α) (H W : Nat) (hs : a.shape = [H, W]) :
    ((∃ i, i < H ∧ ∃ j, j < W ∧ entry2 a i j ≠ 0) →
      ∃ r0 r1 c0 c1,
        (∀ i j, i < H → j < W → entry2 a i j ≠ 0 →
          r0 ≤ i ∧ i ≤ r1 ∧ c0 ≤ j ∧ j ≤ c1) ∧
        (∃ j, j < W ∧ entry2 a r0 j ≠ 0) ∧
        (∃ j, j < W ∧ entry2 a r1 j ≠ 0) ∧
        (∃ i, i < H ∧ entry2 a i c0 ≠ 0) ∧
        (∃ i, i < H ∧ entry2 a i c1 ≠ 0) ∧
        trim_filter a = .ok (subArray a r0 r1 c0 c1)) ∧
    ((∀ i, i < H → ∀ j, j < W → entry2 a i j = 0) →
      trim_filter a = .error .emptyReduce) := by
  constructor
  · rintro ⟨i0, hi0, j0, hj0, hz0⟩
    have hmem0 : (i0, j0) ∈ nonZeroIdx a :=
      (mem_nonZeroIdx a H W hs (i0, j0)).mpr ⟨hi0, hj0, hz0⟩
    cases hnz : nonZeroIdx a with
    | nil => rw [hnz] at hmem0; cases hmem0
    | cons p ps =>
      have hq : ∀ q ∈ p :: ps, q.1 < H ∧ q.2 < W ∧ entry2 a q.1 q.2 ≠ 0 := by
        intro q hqm
        exact (mem_nonZeroIdx a H W hs q).mp (hnz ▸ hqm)
      have hminf := listMin_le (ps.map Prod.fst) p.1
      have hmaxf := listMax_ge (ps.map Prod.fst) p.1
      have hmins := listMin_le (ps.map Prod.snd) p.2
      have hmaxs := listMax_ge (ps.map Prod.snd) p.2
      refine ⟨listMin (ps.map Prod.fst) p.1, listMax (ps.map Prod.fst) p.1,
        listMin (ps.map Prod.snd) p.2, listMax (ps.map Prod.snd) p.2,
        ?_, ?_, ?_, ?_, ?_, ?_⟩
      · intro i j hi hj hz
        have hm : (i, j) ∈ p :: ps :=
          hnz ▸ (mem_nonZeroIdx a H W hs (i, j)).mpr ⟨hi, hj, hz⟩
        rcases List.mem_cons.mp hm with heq | hm2
        · subst heq
          exact ⟨hminf.1, hmaxf.1, hmins.1, hmaxs.1⟩
        · exact ⟨hminf.2 _ (List.mem_map_of_mem Prod.fst hm2),
            hmaxf.2 _ (List.mem_map_of_mem Prod.fst hm2),
            hmins.2 _ (List.mem_map_of_mem Prod.snd hm2),
            hmaxs.2 _ (List.mem_map_of_mem Prod.snd hm2)⟩
      · rcases listMin_mem (ps.map Prod.fst) p.1 with h | h
        · refine ⟨p.2, (hq p (List.mem_cons_self p ps)).2.1, ?_⟩
          rw [h]
          exact (hq p (List.mem_cons_self p ps)).2.2
        · obtain ⟨q, hqm, hq1⟩ := List.mem_map.mp h
          refine ⟨q.2, (hq q (List.mem_cons_of_mem p hqm)).2.1, ?_⟩
          rw [← hq1]
          exact (hq q (List.mem_cons_of_mem p hqm)).2.2
      · rcases listMax_mem (ps.map Prod.fst) p.1 with h | h
        · refine ⟨p.2, (hq p (List.mem_cons_self p ps)).2.1, ?_⟩
          rw [h]
          exact (hq p (List.mem_cons_self p ps)).2.2
        · obtain ⟨q, hqm, hq1⟩ := List.mem_map.mp h
          refine ⟨q.2, (hq q (List.mem_cons_of_mem p hqm)).2.1, ?_⟩
          rw [← hq1]
          exact (hq q (List.mem_cons_of_mem p hqm)).2.2
      · rcases listMin_mem (ps.map Prod.snd) p.2 with h | h
        · refine ⟨p.1, (hq p (List.mem_cons_self p ps)).1, ?_⟩
          rw [h]
          exact (hq p (List.mem_cons_self p ps)).2.2
        · obtain ⟨q, hqm, hq1⟩ := List.mem_map.mp h
          refine ⟨q.1, (hq q (List.mem_cons_of_mem p hqm)).1, ?_⟩
          rw [← hq1]
          exact (hq q (List.mem_cons_of_mem p hqm)).2.2
      · rcases listMax_mem (ps.map Prod.snd) p.2 with h | h
        · refine ⟨p.1, (hq p (List.mem_cons_self p ps)).1, ?_⟩
          rw [h]
          exact (hq p (List.mem_cons_self p ps)).2.2
        · obtain ⟨q, hqm, hq1⟩ := List.mem_map.mp h
          refine ⟨q.1, (hq q (List.mem_cons_of_mem p hqm)).1, ?_⟩
          rw [← hq1]
          exact (hq q (List.mem_cons_of_mem p hqm)).2.2
      · simp only [trim_filter, hnz]
  · intro hzero
    have hnil : nonZeroIdx a = [] := by
      apply List.eq_nil_iff_forall_not_mem.mpr
      intro q hqm
      have hprop := (mem_nonZeroIdx a H W hs q).mp hqm
      exact hprop.2.2 (hzero q.1 hprop.1 q.2 hprop.2.1)
    simp only [trim_filter, hnil]

/-- C10 witness at a concrete input. -/
theorem C10_witness :
    (NDArray.mk [3, 3] [(0 : ℤ), 0, 0, 0, 5, 0, 0, 0, 0]).shape = [3, 3] ∧
    (((∃ i, i < 3 ∧ ∃ j, j < 3 ∧
        entry2 (NDArray.mk [3, 3] [(0 : ℤ), 0, 0, 0, 5, 0, 0, 0, 0]) i j ≠ 0) →
      ∃ r0 r1 c0 c1,
        (∀ i j, i < 3 → j < 3 →
          entry2 (NDArray.mk [3, 3] [(0 : ℤ), 0, 0, 0, 5, 0, 0, 0, 0]) i j ≠ 0 →
          r0 ≤ i ∧ i ≤ r1 ∧ c0 ≤ j ∧ j ≤ c1) ∧
        (∃ j, j < 3 ∧
          entry2 (NDArray.mk [3, 3] [(0 : ℤ), 0, 0, 0, 5, 0, 0, 0, 0]) r0 j ≠ 0) ∧
        (∃ j, j < 3 ∧
          entry2 (NDArray.mk [3, 3] [(0 : ℤ), 0, 0, 0, 5, 0, 0, 0, 0]) r1 j ≠ 0) ∧
        (∃ i, i < 3 ∧
          entry2 (NDArray.mk [3, 3] [(0 : ℤ), 0, 0, 0, 5, 0, 0, 0, 0]) i c0 ≠ 0) ∧
        (∃ i, i < 3 ∧
          entry2 (NDArray.mk [3, 3] [(0 : ℤ), 0, 0, 0, 5, 0, 0, 0, 0]) i c1 ≠ 0) ∧
        trim_filter (NDArray.mk [3, 3] [(0 : ℤ), 0, 0, 0, 5, 0, 0, 0, 0]) =
          .ok (subArray (NDArray.mk [3, 3] [(0 : ℤ), 0, 0, 0, 5, 0, 0, 0, 0]) r0 r1 c0 c1)) ∧
    ((∀ i, i < 3 → ∀ j, j < 3 →
        entry2 (NDArray.mk [3, 3] [(0 : ℤ), 0, 0, 0, 5, 0, 0, 0, 0]) i j = 0) →
      trim_filter (NDArray.mk [3, 3] [(0 : ℤ), 0, 0, 0, 5, 0, 0, 0, 0]) =
        .error .emptyReduce)) :=
  ⟨rfl, C10_trim_bounding_box (NDArray.mk [3, 3] [(0 : ℤ), 0, 0, 0, 5, 0, 0, 0, 0]) 3 3 rfl⟩

end ModOpt
